import Mathlib

/-!
# Verification of the bond-trading back-office pipeline

Shallow embedding of the service layer of the bond-trading system
(position service, risk service, algo execution, algo streaming, trade
booking, market data, inquiry state machine, fractional price codec).

Modelling conventions:
* C++ `double` prices and spreads are modelled as `ℚ`.  Every price in the
  claims is dyadic (denominator a power of two), so the binary floating
  point computations of the source are exact on them and `ℚ` is faithful.
* C++ `long` quantities are modelled as `Int`.  The source stores some
  quantities in `double` fields, but every producer writes a `long` value
  and every consumer reads it back as `long`; for the magnitudes involved
  (≤ 5 000 000) the round trip through `double` is exact.
* `std::map<std::string, V>` caches are modelled as association lists
  `List (String × V)`; iteration order does not matter for any claim.
* A call to `exit(0)` (the not-found branches of `GetData` etc.) is
  modelled by returning `Option.none`.
-/

namespace BondSys

/-- Trade sides, from `tradebookingservice.hpp` (`enum Side`). -/
inductive Side
  | BUY
  | SELL
deriving DecidableEq

/-- Market-data sides, from `marketdataservice.hpp` (`enum PricingSide`). -/
inductive PricingSide
  | BID
  | OFFER
deriving DecidableEq

/-- Order types, from `executionservice.hpp` (`enum OrderType`). -/
inductive OrderType
  | FOK
  | IOC
  | MARKET
  | LIMIT
  | STOP
deriving DecidableEq

/-- Inquiry states, from `inquiryservice.hpp` (`enum InquiryState`). -/
inductive InquiryState
  | RECEIVED
  | QUOTED
  | DONE
  | REJECTED
  | CUSTOMER_REJECTED
deriving DecidableEq

/-- `std::map::find` on an association list: first matching key. -/
def findAssoc {α : Type} : List (String × α) → String → Option α
  | [], _ => none
  | (k, v) :: rest, key => if k = key then some v else findAssoc rest key

/-- In-place update of the value found by `std::map::find` (no-op when the
key is absent, which matches the places where the source guards the update
by a successful `find`). -/
def updateAssoc {α : Type} : List (String × α) → String → (α → α) → List (String × α)
  | [], _, _ => []
  | (k, v) :: rest, key, f =>
    if k = key then (k, f v) :: rest else (k, v) :: updateAssoc rest key f

/-- The find-then-update-or-insert pattern of `Position::AddPosition`:
add `d` to the entry for `book`, inserting `d` when the book is absent
(absent books hold 0 before the addition). -/
def mapAdd : List (String × Int) → String → Int → List (String × Int)
  | [], book, d => [(book, d)]
  | (k, v) :: rest, book, d =>
    if k = book then (k, v + d) :: rest else (k, v) :: mapAdd rest book d

/-! ## Positions (`positionservice.hpp`) -/

/-- `Position<Bond>`: the product and the mapping book → signed quantity.
The product is identified by its CUSIP string. -/
structure Position where
  product : String
  positions : List (String × Int)
deriving DecidableEq

/-- `Position::GetAggregatePosition`: sum of the signed quantities over all
books. -/
def Position.GetAggregatePosition (p : Position) : Int :=
  p.positions.foldl (fun s kv => s + kv.2) 0

/-- `Position::AddPosition`: flip the sign for SELL, then add into the
named book (insert when absent). -/
def Position.AddPosition (p : Position) (book : String) (quantity : Int) (side : Side) :
    Position :=
  let signed := if side = Side.BUY then quantity else -quantity
  { p with positions := mapAdd p.positions book signed }

/-- `Trade<Bond>`, from `tradebookingservice.hpp`. -/
structure Trade where
  product : String
  tradeId : String
  price : ℚ
  book : String
  quantity : Int
  side : Side
deriving DecidableEq

/-- The seven CUSIPs of `BondInfo::GetCUSIP`. -/
def bondCusips : List String :=
  ["91282CAX9", "91282CBA80", "91282CAZ4", "91282CAY7",
   "91282CAV3", "912810ST6", "912810SS8"]

/-- The `BondPositionService` constructor: one empty `Position` per known
CUSIP. -/
def initPositionState : List (String × Position) :=
  bondCusips.map (fun c => (c, ⟨c, []⟩))

/-- `BondPositionService::AddTrade`: look the product up; on a miss the
process exits (modelled `none`); on a hit add the signed delta into the
trade's book. -/
def addTrade (st : List (String × Position)) (t : Trade) :
    Option (List (String × Position)) :=
  match findAssoc st t.product with
  | none => none
  | some _ => some (updateAssoc st t.product
      (fun p => p.AddPosition t.book t.quantity t.side))

/-- Process a finite sequence of trades through `AddTrade`. -/
def processTrades : List (String × Position) → List Trade →
    Option (List (String × Position))
  | st, [] => some st
  | st, t :: ts =>
    match addTrade st t with
    | none => none
    | some st2 => processTrades st2 ts

/-- The signed quantity of a trade: `+q` for BUY, `-q` for SELL. -/
def signedQty (t : Trade) : Int :=
  if t.side = Side.BUY then t.quantity else -t.quantity

/-- Σ over the trades with the given product of their signed quantities. -/
def signedSum (ts : List Trade) (c : String) : Int :=
  ((ts.filter (fun t => t.product = c)).map signedQty).sum

/-! ## Market data (`marketdataservice.hpp`) -/

/-- A market-data `Order` with price, quantity and side. -/
structure MDOrder where
  price : ℚ
  quantity : Int
  side : PricingSide
deriving DecidableEq

/-- `OrderBook<Bond>`: ordered bid stack and offer stack, index 0 best. -/
structure OrderBook where
  product : String
  bidStack : List MDOrder
  offerStack : List MDOrder
deriving DecidableEq

/-- Totalising default for `stack[0]` on an empty stack (the C++ indexing
would be undefined there; every claim is stated on non-empty stacks, where
the default is never reached). -/
def defaultOrder : MDOrder := ⟨0, 0, PricingSide.BID⟩

/-- `OrderBook::GetSpread`: best offer price minus best bid price. -/
def OrderBook.GetSpread (ob : OrderBook) : ℚ :=
  (ob.offerStack.headD defaultOrder).price - (ob.bidStack.headD defaultOrder).price

/-- `BondMarketDataService::OnMessage`: erase any cached book for the
product, then insert the new one. -/
def mdOnMessage (st : List (String × OrderBook)) (ob : OrderBook) :
    List (String × OrderBook) :=
  (st.filter (fun kv => kv.1 ≠ ob.product)) ++ [(ob.product, ob)]

/-- `BondMarketDataService::GetBestBidOffer`, translated exactly as
written: a cache miss exits the process (`none`); on a hit the source
reads `GetOfferStack()[0]` into BOTH components of the returned
`BidOffer` (the `bid_order` local is also initialised from the offer
stack).  The pair is (bid component, offer component). -/
def getBestBidOffer (st : List (String × OrderBook)) (productId : String) :
    Option (MDOrder × MDOrder) :=
  match findAssoc st productId with
  | none => none
  | some ob =>
    some (ob.offerStack.headD defaultOrder, ob.offerStack.headD defaultOrder)

/-! ## Algo execution (`executionservice.hpp`, `BondAlgoExecutionService`) -/

/-- `ExecutionOrder<Bond>`. -/
structure ExecutionOrder where
  product : String
  side : PricingSide
  orderId : String
  orderType : OrderType
  price : ℚ
  visibleQuantity : Int
  hiddenQuantity : Int
  parentOrderId : String
  isChildOrder : Bool
deriving DecidableEq

/-- `BondAlgoExecutionService::AlgoExecute` on one order book: increment
the counter (also on dropped books), alternate the side by the counter's
parity, drop when the spread exceeds 1/128, otherwise emit a MARKET order
priced at the best level of the chosen side with the opposite best level's
quantity (hidden = visible). -/
def algoExecute (count : Nat) (ob : OrderBook) : Nat × Option ExecutionOrder :=
  let c := count + 1
  let side := if c % 2 = 1 then PricingSide.BID else PricingSide.OFFER
  if ob.GetSpread > 1 / 128 then (c, none)
  else
    let orderId := toString c
    let price := if side = PricingSide.BID then (ob.bidStack.headD defaultOrder).price
      else (ob.offerStack.headD defaultOrder).price
    let quantity := if side = PricingSide.BID then (ob.offerStack.headD defaultOrder).quantity
      else (ob.bidStack.headD defaultOrder).quantity
    (c, some ⟨ob.product, side, orderId, OrderType.MARKET, price,
              quantity, quantity, orderId, false⟩)

/-- Run `AlgoExecute` over a sequence of incoming order books, collecting
the emitted execution orders in emission order. -/
def runAlgo : Nat → List OrderBook → Nat × List ExecutionOrder
  | c, [] => (c, [])
  | c, ob :: obs =>
    let r := algoExecute c ob
    let rest := runAlgo r.1 obs
    (rest.1, (match r.2 with
              | some e => [e]
              | none => []) ++ rest.2)

/-- Side chosen for counter value `c` (the source tests `count % 2`). -/
def sideOfCount (c : Nat) : PricingSide :=
  if c % 2 = 1 then PricingSide.BID else PricingSide.OFFER

/-- The sides emitted by a drop-free run starting from counter `c`:
`sideOfCount (c+1), sideOfCount (c+2), …`. -/
def parityList : Nat → Nat → List PricingSide
  | _, 0 => []
  | c, n + 1 => sideOfCount (c + 1) :: parityList (c + 1) n

/-! ## Execution → trade synthesis (`BondTradeBookingListener::ProcessAdd`) -/

/-- `BondTradeBookingListener::ProcessAdd`: from each execution order
synthesise exactly one trade; the book counter is incremented before each
synthesis and the book is `"TRSY"` followed by `1 + count % 3`. -/
def tradeBookingProcessAdd (count : Nat) (order : ExecutionOrder) : Nat × Trade :=
  let c := count + 1
  let book := "TRSY" ++ toString (1 + c % 3)
  (c, ⟨order.product, order.orderId, order.price, book, order.visibleQuantity,
       if order.side = PricingSide.BID then Side.BUY else Side.SELL⟩)

/-! ## Algo streaming (`streamingservice.hpp`, `BondAlgoStreamingService`) -/

/-- `Price<Bond>`: product, mid and bid-offer spread. -/
structure Price where
  product : String
  mid : ℚ
  bidOfferSpread : ℚ
deriving DecidableEq

/-- `PriceStreamOrder`: price, visible and hidden quantity, side. -/
structure PriceStreamOrder where
  price : ℚ
  visibleQuantity : Int
  hiddenQuantity : Int
  side : PricingSide
deriving DecidableEq

/-- `PriceStream<Bond>`: product with a bid and an offer order. -/
structure PriceStream where
  product : String
  bidOrder : PriceStreamOrder
  offerOrder : PriceStreamOrder
deriving DecidableEq

/-- `BondAlgoStreamingService::PublishPrice` on one price: bid/offer at
mid ∓ spread/2, visible size 2 000 000 when the counter is 0 (flipping it
to 1) else 1 000 000 (flipping it to 0), hidden = 2 · visible. -/
def publishPrice (count : Int) (p : Price) : Int × PriceStream :=
  let spread := p.bidOfferSpread
  let mid := p.mid
  let bidPrice := mid - spread * (1 / 2)
  let offerPrice := mid + spread * (1 / 2)
  let visible : Int := if count = 0 then 2000000 else 1000000
  let count2 : Int := if count = 0 then 1 else 0
  let hidden := 2 * visible
  (count2, ⟨p.product, ⟨bidPrice, visible, hidden, PricingSide.BID⟩,
            ⟨offerPrice, visible, hidden, PricingSide.OFFER⟩⟩)

/-- Run `PublishPrice` over a sequence of incoming prices, collecting the
emitted price streams in order (every price emits exactly one stream). -/
def runAlgoStreaming : Int → List Price → List PriceStream
  | _, [] => []
  | c, p :: ps =>
    let r := publishPrice c p
    r.2 :: runAlgoStreaming r.1 ps

/-! ## Risk service (`riskservice.hpp`) -/

/-- `BondInfo::GetPV01`: per-unit PV01 by CUSIP, 0 for an unknown CUSIP. -/
def getPV01 (cusip : String) : ℚ :=
  if cusip = "91282CAX9" then 2 / 100
  else if cusip = "91282CBA80" then 3 / 100
  else if cusip = "91282CAZ4" then 5 / 100
  else if cusip = "91282CAY7" then 7 / 100
  else if cusip = "91282CAV3" then 10 / 100
  else if cusip = "912810ST6" then 20 / 100
  else if cusip = "912810SS8" then 30 / 100
  else 0

/-- `PV01<Bond>`: product, per-unit PV01 and quantity. -/
structure PV01 where
  product : String
  pv01 : ℚ
  quantity : Int
deriving DecidableEq

/-- `BondRiskService::AddPosition`: construct a `PV01` from the aggregate
position and the catalog PV01 and notify listeners with it.  The `risks`
cache is NOT written to (faithful to the source). -/
def riskAddPosition (risks : List (String × PV01)) (p : Position) :
    List (String × PV01) × PV01 :=
  (risks, ⟨p.product, getPV01 p.product, p.GetAggregatePosition⟩)

/-- Process a sequence of positions through `BondRiskService::AddPosition`,
returning the final `risks` cache. -/
def riskProcess : List (String × PV01) → List Position → List (String × PV01)
  | risks, [] => risks
  | risks, p :: ps => riskProcess (riskAddPosition risks p).1 ps

/-- `BondRiskService::GetData`: cache lookup; a miss exits the process
(modelled `none`). -/
def riskGetData (risks : List (String × PV01)) (key : String) : Option PV01 :=
  findAssoc risks key

/-- Result of the bucketed-risk division.  The source divides
unconditionally in `double`; a zero total quantity therefore produces a
non-finite value (NaN or ±infinity), modelled as `undef`. -/
inductive RiskVal
  | fin (x : ℚ)
  | undef
deriving DecidableEq

/-- Accumulator loop of `BondRiskService::GetBucketedRisk`: for each
product of the sector call `GetData` (a miss exits the process, `none`)
and accumulate Σqᵢ and Σqᵢ·pv01ᵢ. -/
def bucketedRiskAux (risks : List (String × PV01)) :
    List String → ℚ → ℚ → Option (ℚ × ℚ)
  | [], pv, q => some (pv, q)
  | c :: cs, pv, q =>
    match findAssoc risks c with
    | none => none
    | some r => bucketedRiskAux risks cs (pv + (r.quantity : ℚ) * r.pv01)
        (q + (r.quantity : ℚ))

/-- `BondRiskService::GetBucketedRisk` over a sector given by its product
identifiers: weighted mean Σ(qᵢ·pv01ᵢ)/Σqᵢ with total quantity Σqᵢ. -/
def getBucketedRisk (risks : List (String × PV01)) (sector : List String) :
    Option (RiskVal × ℚ) :=
  match bucketedRiskAux risks sector 0 0 with
  | none => none
  | some r =>
    some (if r.2 = 0 then RiskVal.undef else RiskVal.fin (r.1 / r.2), r.2)

/-- Spec-side total sector quantity: Σ over the sector of the cached
quantity, a missing entry contributing 0. -/
def sectorQ (risks : List (String × PV01)) (sector : List String) : ℚ :=
  (sector.map (fun c =>
    match findAssoc risks c with
    | some r => (r.quantity : ℚ)
    | none => 0)).sum

/-- Spec-side weighted PV01 sum: Σ over the sector of qᵢ·pv01ᵢ, a missing
entry contributing 0. -/
def sectorPV (risks : List (String × PV01)) (sector : List String) : ℚ :=
  (sector.map (fun c =>
    match findAssoc risks c with
    | some r => (r.quantity : ℚ) * r.pv01
    | none => 0)).sum

/-! ## Inquiry state machine (`inquiryservice.hpp`) -/

/-- `Inquiry<Bond>`. -/
structure Inquiry where
  inquiryId : String
  product : String
  side : Side
  quantity : Int
  price : ℚ
  state : InquiryState
deriving DecidableEq

/-- `QuoteConnector::Publish`: flip RECEIVED to QUOTED, no-op otherwise. -/
def quotePublish (i : Inquiry) : Inquiry :=
  if i.state = InquiryState.RECEIVED then { i with state := InquiryState.QUOTED } else i

/-- Rank used to justify termination of the `OnMessage`/`SendQuote`
round trip (the state only ever moves down this rank). -/
def inquiryRank : InquiryState → Nat
  | InquiryState.RECEIVED => 2
  | InquiryState.QUOTED => 1
  | _ => 0

mutual

/-- `BondInquiryService::OnMessage`.  Returns the final inquiry value and
the list of inquiry snapshots notified to downstream listeners, in order.
RECEIVED: set price to 100 and send the quote (the connector flips the
state to QUOTED and a second `OnMessage` pass runs).  QUOTED: set DONE,
send the update (a no-op at the connector) and notify.  Anything else:
set REJECTED and notify. -/
def inquiryOnMessage (i : Inquiry) : Inquiry × List Inquiry :=
  match h : i.state with
  | InquiryState.RECEIVED => inquirySendQuote { i with price := 100 }
  | InquiryState.QUOTED =>
    let r := inquirySendQuote { i with state := InquiryState.DONE }
    (r.1, r.2 ++ [r.1])
  | InquiryState.DONE =>
    let j := { i with state := InquiryState.REJECTED }
    (j, [j])
  | InquiryState.REJECTED =>
    let j := { i with state := InquiryState.REJECTED }
    (j, [j])
  | InquiryState.CUSTOMER_REJECTED =>
    let j := { i with state := InquiryState.REJECTED }
    (j, [j])
termination_by 2 * inquiryRank i.state
decreasing_by
all_goals simp_all [quotePublish, inquiryRank]

/-- `BondInquiryService::SendQuote`: publish through the quote connector,
then re-enter `OnMessage` when the connector left the inquiry QUOTED. -/
def inquirySendQuote (i : Inquiry) : Inquiry × List Inquiry :=
  let j := quotePublish i
  if h : j.state = InquiryState.QUOTED then inquiryOnMessage j else (j, [])
termination_by 2 * inquiryRank (quotePublish i).state + 1
decreasing_by
all_goals simp_all [quotePublish, inquiryRank]

end

/-! ## Fractional price codec (`bondinfo.hpp`) -/

/-- The decimal digit character for `n < 10` (`'0' + n`). -/
def digitChar (n : Nat) : Char := Char.ofNat (48 + n)

/-- Decimal digits of a natural number, as `std::to_string` produces them.
Fuel-indexed structural recursion (`n / 10 < n`), `n + 1` fuel always
suffices. -/
def natToCharsFuel : Nat → Nat → List Char
  | 0, _ => []
  | fuel + 1, n =>
    if n < 10 then [digitChar n]
    else natToCharsFuel fuel (n / 10) ++ [digitChar (n % 10)]

/-- `std::to_string` on a natural number. -/
def natToChars (n : Nat) : List Char := natToCharsFuel (n + 1) n

/-- `std::to_string` on an `int`. -/
def intToChars (i : Int) : List Char :=
  if i < 0 then Char.ofNat 45 :: natToChars (-i).toNat else natToChars i.toNat

/-- `BondInfo::FormatPrice`: floor into the integer part `I`, then
`⌊32(price−I)⌋` into the 32nds `xy` (zero-padded to two characters), then
`⌊256(price−I−xy/32)⌋` into the 256ths `z`; render as `I-XYZ`. -/
def formatPrice (price : ℚ) : List Char :=
  let i : Int := Int.floor price
  let xy : Int := Int.floor (32 * (price - (i : ℚ)))
  let z : Int := Int.floor (256 * (price - (i : ℚ) - (xy : ℚ) / 32))
  let xyStr := intToChars xy
  let xyStr2 := if xyStr.length = 1 then digitChar 0 :: xyStr
    else if xyStr.length = 0 then [digitChar 0, digitChar 0]
    else xyStr
  intToChars i ++ Char.ofNat 45 :: (xyStr2 ++ intToChars z)

/-- The C character arithmetic `s[k] - '0'`. -/
def charVal (c : Char) : Int := (c.toNat : Int) - 48

/-- `BondInfo::CalculatePrice`: read the digits from the tail of the
string at fixed offsets from the end and add 100 when the string has
seven characters.  The source indexes `s[size-5]` and `s[size-6]`
unconditionally, which is only defined for sizes 6 and 7; indexing is
totalised here with `getD` (a digit `'0'` default), which is never reached
for sizes 6 and 7. -/
def calculatePrice (s : List Char) : ℚ :=
  let n := s.length
  let price1 : ℚ := (charVal (s.getD (n - 1) (digitChar 0)) : ℚ) / 256
  let price2 := price1 + (charVal (s.getD (n - 2) (digitChar 0)) : ℚ) / 32
  let price3 := price2 + 10 * (charVal (s.getD (n - 3) (digitChar 0)) : ℚ) / 32
  let price4 := price3 + (charVal (s.getD (n - 5) (digitChar 0)) : ℚ)
  let price5 := price4 + 10 * (charVal (s.getD (n - 6) (digitChar 0)) : ℚ)
  if n = 7 then price5 + 100 else price5

/-! ## Demo inputs used by the witnesses and counterexamples -/

/-- Two trades on the 2Y CUSIP: BUY 1 000 000 into TRSY1, then SELL
400 000 into TRSY2 (scenario S2 of the spec). -/
def demoTrades : List Trade :=
  [⟨"91282CAX9", "T1", 100, "TRSY1", 1000000, Side.BUY⟩,
   ⟨"91282CAX9", "T2", 99, "TRSY2", 400000, Side.SELL⟩]

/-- The 2Y position after `demoTrades`. -/
def demoFinalPos : Position :=
  ⟨"91282CAX9", [("TRSY1", 1000000), ("TRSY2", -400000)]⟩

/-- The full position cache after `demoTrades`. -/
def demoFinalState : List (String × Position) :=
  ("91282CAX9", demoFinalPos) :: (bondCusips.drop 1).map (fun c => (c, ⟨c, []⟩))

/-- An order book with spread 1/256 (passes the spread gate). -/
def demoTightBook : OrderBook :=
  ⟨"91282CAX9", [⟨99, 1000000, PricingSide.BID⟩],
   [⟨99 + 1 / 256, 1000000, PricingSide.OFFER⟩]⟩

/-- An order book with spread 1 (fails the spread gate). -/
def demoWideBook : OrderBook :=
  ⟨"91282CAX9", [⟨99, 1000000, PricingSide.BID⟩],
   [⟨100, 1000000, PricingSide.OFFER⟩]⟩

/-- Two incoming prices with mid 100 and spread 1/64. -/
def demoPrices : List Price :=
  [⟨"91282CAX9", 100, 1 / 64⟩, ⟨"91282CAX9", 100, 1 / 64⟩]

/-- Default used with `List.getD` in closed statements about streams. -/
def defaultStream : PriceStream :=
  ⟨"", ⟨0, 0, 0, PricingSide.BID⟩, ⟨0, 0, 0, PricingSide.OFFER⟩⟩

/-- An inquiry entering the service in state RECEIVED. -/
def demoInquiry : Inquiry :=
  ⟨"Q1", "91282CAX9", Side.BUY, 0, 0, InquiryState.RECEIVED⟩

/-- A one-entry risk cache used to exercise `GetBucketedRisk` (the shipped
service never reaches such a state, see the never-populated theorem; the
bucketing function itself is total in the cache contents). -/
def demoRisks : List (String × PV01) :=
  [("91282CAX9", ⟨"91282CAX9", 2 / 100, 1000000⟩)]

end BondSys

namespace BondSys

/-! ## Supporting lemmas -/

theorem foldl_add_snd (l : List (String × Int)) (a : Int) :
    l.foldl (fun s kv => s + kv.2) a = a + (l.map Prod.snd).sum := by
  induction l generalizing a with
  | nil => simp
  | cons hd tl ih => simp [List.foldl_cons, ih (a + hd.2)]; ring

theorem sum_mapAdd (m : List (String × Int)) (book : String) (d : Int) :
    ((mapAdd m book d).map Prod.snd).sum = (m.map Prod.snd).sum + d := by
  induction m with
  | nil => simp [mapAdd]
  | cons hd tl ih =>
    by_cases h : hd.1 = book
    · simp [mapAdd, h]; ring
    · simp [mapAdd, h, ih]; ring

theorem aggregate_AddPosition (p : Position) (book : String) (q : Int) (side : Side) :
    (p.AddPosition book q side).GetAggregatePosition =
      p.GetAggregatePosition + (if side = Side.BUY then q else -q) := by
  simp [Position.AddPosition, Position.GetAggregatePosition, foldl_add_snd, sum_mapAdd]

theorem findAssoc_updateAssoc {α : Type} (st : List (String × α)) (k c : String)
    (f : α → α) :
    findAssoc (updateAssoc st k f) c =
      if c = k then (findAssoc st k).map f else findAssoc st c := by
  induction st with
  | nil => simp [updateAssoc, findAssoc]
  | cons hd tl ih =>
    rcases hd with ⟨a, v⟩
    by_cases h1 : a = k
    · subst h1
      by_cases h2 : c = a
      · subst h2
        simp [updateAssoc, findAssoc]
      · have hac : ¬ a = c := fun h => h2 h.symm
        simp [updateAssoc, findAssoc, hac, h2]
    · by_cases h2 : a = c
      · subst h2
        simp [updateAssoc, findAssoc, h1]
      · simp [updateAssoc, findAssoc, h1, h2, ih]

theorem signedSum_cons (t : Trade) (ts : List Trade) (c : String) :
    signedSum (t :: ts) c =
      (if t.product = c then signedQty t else 0) + signedSum ts c := by
  by_cases h : t.product = c <;> simp [signedSum, h]

theorem processTrades_aggregate (ts : List Trade) :
    ∀ (st st2 : List (String × Position)) (c : String) (p2 : Position),
    processTrades st ts = some st2 → findAssoc st2 c = some p2 →
    ∃ p1, findAssoc st c = some p1 ∧
      p2.GetAggregatePosition = p1.GetAggregatePosition + signedSum ts c := by
  induction ts with
  | nil =>
    intro st st2 c p2 h1 h2
    simp [processTrades] at h1
    subst h1
    exact ⟨p2, h2, by simp [signedSum]⟩
  | cons t ts ih =>
    intro st st2 c p2 h1 h2
    simp only [processTrades] at h1
    rcases hat : addTrade st t with _ | st1
    · rw [hat] at h1; exact absurd h1 (by simp)
    rw [hat] at h1
    obtain ⟨p1, hf1, hagg⟩ := ih st1 st2 c p2 h1 h2
    simp only [addTrade] at hat
    rcases hfp : findAssoc st t.product with _ | p0
    · rw [hfp] at hat; exact absurd hat (by simp)
    rw [hfp] at hat
    have hst1 : st1 = updateAssoc st t.product
        (fun p => p.AddPosition t.book t.quantity t.side) := by
      injection hat with h; exact h.symm
    rw [hst1, findAssoc_updateAssoc] at hf1
    by_cases hc : c = t.product
    · rw [if_pos hc, hfp] at hf1
      simp at hf1
      refine ⟨p0, by rw [hc]; exact hfp, ?_⟩
      rw [hagg, ← hf1, aggregate_AddPosition, signedSum_cons, if_pos (hc.symm)]
      simp [signedQty]; ring
    · rw [if_neg hc] at hf1
      refine ⟨p1, hf1, ?_⟩
      rw [hagg, signedSum_cons, if_neg (fun h => hc h.symm)]
      ring

theorem findAssoc_init_empty (l : List String) (c : String) (p : Position) :
    findAssoc (l.map (fun c2 => (c2, Position.mk c2 []))) c = some p →
    p.positions = [] := by
  induction l with
  | nil => intro h; exact absurd h (by simp [findAssoc])
  | cons hd tl ih =>
    intro h
    simp only [List.map_cons, findAssoc] at h
    by_cases hc : hd = c
    · rw [if_pos hc] at h
      injection h with h
      rw [← h]
    · rw [if_neg hc] at h
      exact ih h

/-! ## C1 — position conservation -/

/-- C1: for every CUSIP `c` and every finite sequence of trades processed
through `BondPositionService::AddTrade`, the aggregate position for `c`
equals the sum over the trades with that product of the signed
quantities (+q for BUY, −q for SELL); within each book `AddPosition` adds
the signed delta, a missing book holding 0 before the addition. -/
theorem position_conservation (T : List Trade) (st : List (String × Position))
    (c : String) (p : Position)
    (h1 : processTrades initPositionState T = some st)
    (h2 : findAssoc st c = some p) :
    p.GetAggregatePosition = signedSum T c := by
  obtain ⟨p1, hf, hagg⟩ := processTrades_aggregate T initPositionState st c p h1 h2
  have hempty : p1.positions = [] := findAssoc_init_empty bondCusips c p1 hf
  rw [hagg]
  simp [Position.GetAggregatePosition, hempty]

/-- Witness for C1: the S2 scenario, BUY 1 000 000 then SELL 400 000 on
the 2Y CUSIP; the aggregate is 600 000 on both sides. -/
theorem position_conservation_witness :
    processTrades initPositionState demoTrades = some demoFinalState ∧
    findAssoc demoFinalState "91282CAX9" = some demoFinalPos ∧
    demoFinalPos.GetAggregatePosition = signedSum demoTrades "91282CAX9" :=
  ⟨by decide, by decide,
   position_conservation demoTrades demoFinalState "91282CAX9" demoFinalPos
     (by decide) (by decide)⟩

/-! ## C2 — algo execution on one order book -/

/-- C2: on each incoming book the counter is incremented (also on drops);
an order is emitted iff the spread is at most 1/128, and the emitted order
has orderId the decimal counter, side by the counter's parity, price from
the best level of its own side, visible quantity from the best level of
the opposite side, hidden = visible, type MARKET, parent = orderId and
is-child false. -/
theorem algo_execution_rule (count : Nat) (ob : OrderBook) (b o : MDOrder)
    (bs os : List MDOrder) (hb : ob.bidStack = b :: bs) (ho : ob.offerStack = o :: os) :
    (algoExecute count ob).1 = count + 1 ∧
    ((algoExecute count ob).2 ≠ none ↔ o.price - b.price ≤ 1 / 128) ∧
    ∀ e, (algoExecute count ob).2 = some e →
      e.orderId = toString (count + 1) ∧
      e.side = (if (count + 1) % 2 = 1 then PricingSide.BID else PricingSide.OFFER) ∧
      e.price = (if (count + 1) % 2 = 1 then b.price else o.price) ∧
      e.visibleQuantity = (if (count + 1) % 2 = 1 then o.quantity else b.quantity) ∧
      e.hiddenQuantity = e.visibleQuantity ∧
      e.orderType = OrderType.MARKET ∧
      e.parentOrderId = e.orderId ∧
      e.isChildOrder = false ∧
      e.product = ob.product := by
  have hspread : ob.GetSpread = o.price - b.price := by
    simp [OrderBook.GetSpread, hb, ho]
  refine ⟨?_, ?_, ?_⟩
  · simp only [algoExecute]
    split <;> rfl
  · simp only [algoExecute]
    by_cases hg : ob.GetSpread > 1 / 128
    · rw [if_pos hg]
      have hx : (1 : ℚ) / 128 < o.price - b.price := hspread ▸ hg
      simp
      linarith
    · rw [if_neg hg]
      have hx : o.price - b.price ≤ 1 / 128 := not_lt.mp (hspread ▸ hg)
      simp
      linarith
  · intro e he
    simp only [algoExecute] at he
    by_cases hg : ob.GetSpread > 1 / 128
    · rw [if_pos hg] at he
      exact absurd he (by simp)
    · rw [if_neg hg] at he
      by_cases hpar : (count + 1) % 2 = 1
      · simp [hpar, hb, ho] at he
        subst he
        simp [hpar]
      · simp [hpar, hb, ho] at he
        subst he
        simp [hpar]

/-- Witness for C2: the first book with spread 1/256 increments the
counter to 1 and passes the gate. -/
theorem algo_execution_rule_witness :
    (algoExecute 0 demoTightBook).1 = 0 + 1 ∧ (algoExecute 0 demoTightBook).2 ≠ none := by
  have h := algo_execution_rule 0 demoTightBook ⟨99, 1000000, PricingSide.BID⟩
    ⟨99 + 1 / 256, 1000000, PricingSide.OFFER⟩ [] [] rfl rfl
  exact ⟨h.1, h.2.1.mpr (by norm_num)⟩

/-! ## C3 — side alternation of the emitted executions -/

/-- Counterexample to C3 as stated: the incoming books tight, wide, tight
(the middle one dropped by the spread gate) emit two consecutive BID
orders, because the parity counter advances on dropped books too. -/
theorem algo_side_alternation_counterexample :
    ((runAlgo 0 [demoTightBook, demoWideBook, demoTightBook]).2.map
      (fun e => e.side)) = [PricingSide.BID, PricingSide.BID] ∧
    ¬ List.Chain' (fun a b => a ≠ b)
      ((runAlgo 0 [demoTightBook, demoWideBook, demoTightBook]).2.map
        (fun e => e.side)) := by
  have ht : ¬ demoTightBook.GetSpread > 1 / 128 := by
    norm_num [demoTightBook, OrderBook.GetSpread, defaultOrder]
  have hw : demoWideBook.GetSpread > 1 / 128 := by
    norm_num [demoWideBook, OrderBook.GetSpread, defaultOrder]
  have hsides : ((runAlgo 0 [demoTightBook, demoWideBook, demoTightBook]).2.map
      (fun e => e.side)) = [PricingSide.BID, PricingSide.BID] := by
    simp only [runAlgo, algoExecute, if_neg ht, if_pos hw]
    simp
  refine ⟨hsides, ?_⟩
  rw [hsides]
  simp [List.chain'_cons]

theorem sideOfCount_succ_ne (c : Nat) : sideOfCount (c + 1) ≠ sideOfCount (c + 2) := by
  by_cases hp : (c + 1) % 2 = 1
  · have h2 : (c + 2) % 2 = 0 := by omega
    simp [sideOfCount, hp, h2]
  · have h1 : (c + 1) % 2 = 0 := by omega
    have h2 : (c + 2) % 2 = 1 := by omega
    simp [sideOfCount, h1, h2]

theorem runAlgo_sides_no_drop (books : List OrderBook) :
    ∀ c, (∀ ob ∈ books, ob.GetSpread ≤ 1 / 128) →
    (runAlgo c books).2.map (fun e => e.side) = parityList c books.length := by
  induction books with
  | nil => intro c _; simp [runAlgo, parityList]
  | cons ob obs ih =>
    intro c h
    have hob : ob.GetSpread ≤ 1 / 128 := h ob (by simp)
    have hrest : ∀ x ∈ obs, x.GetSpread ≤ 1 / 128 := fun x hx => h x (by simp [hx])
    have hng : ¬ ob.GetSpread > 1 / 128 := not_lt.mpr hob
    simp only [runAlgo, algoExecute, if_neg hng]
    simp [parityList, sideOfCount, ih (c + 1) hrest]

theorem parityList_chain (n : Nat) : ∀ c, List.Chain' (fun a b => a ≠ b) (parityList c n) := by
  induction n with
  | zero => intro c; simp [parityList]
  | succ m ih =>
    intro c
    rw [parityList]
    rcases m with _ | k
    · simp [parityList]
    · rw [List.chain'_cons']
      refine ⟨?_, ih (c + 1)⟩
      intro y hy
      rw [parityList] at hy
      simp at hy
      rw [← hy]
      exact sideOfCount_succ_ne c

/-- C3 amended: among emitted executions the sides follow the parity of
the incoming-book counter, so they alternate BID, OFFER, BID, … whenever
every incoming book passes the spread gate; a dropped book still advances
the counter, which breaks the alternation (see the counterexample). -/
theorem algo_side_alternation (books : List OrderBook)
    (h : ∀ ob ∈ books, ob.GetSpread ≤ 1 / 128) :
    List.Chain' (fun a b => a ≠ b) ((runAlgo 0 books).2.map (fun e => e.side)) := by
  rw [runAlgo_sides_no_drop books 0 h]
  exact parityList_chain books.length 0

/-- Witness for the amended C3: two tight books emit alternating sides. -/
theorem algo_side_alternation_witness :
    (∀ ob ∈ [demoTightBook, demoTightBook], ob.GetSpread ≤ 1 / 128) ∧
    List.Chain' (fun a b => a ≠ b)
      ((runAlgo 0 [demoTightBook, demoTightBook]).2.map (fun e => e.side)) :=
  have hall : ∀ ob ∈ [demoTightBook, demoTightBook], ob.GetSpread ≤ 1 / 128 := by
    intro ob hob
    simp only [List.mem_cons, List.not_mem_nil, or_false] at hob
    rcases hob with rfl | rfl <;>
      norm_num [demoTightBook, OrderBook.GetSpread, defaultOrder]
  ⟨hall, algo_side_alternation [demoTightBook, demoTightBook] hall⟩

/-! ## C4 — execution-to-trade round trip -/

/-- C4: each execution order delivered to
`BondTradeBookingListener::ProcessAdd` produces exactly one trade (the
function returns exactly one) with the order's visible quantity, order id
as trade id, the order price, BUY for BID and SELL for OFFER, and book
`"TRSY" ++ (1 + k % 3)` for the pre-incremented counter `k`; the first
three executions get books TRSY2, TRSY3, TRSY1. -/
theorem execution_trade_round_trip (count : Nat) (order : ExecutionOrder) :
    (tradeBookingProcessAdd count order).1 = count + 1 ∧
    ((tradeBookingProcessAdd count order).2).quantity = order.visibleQuantity ∧
    ((tradeBookingProcessAdd count order).2).tradeId = order.orderId ∧
    ((tradeBookingProcessAdd count order).2).price = order.price ∧
    ((tradeBookingProcessAdd count order).2).side =
      (if order.side = PricingSide.BID then Side.BUY else Side.SELL) ∧
    ((tradeBookingProcessAdd count order).2).book =
      "TRSY" ++ toString (1 + (count + 1) % 3) ∧
    ((tradeBookingProcessAdd 0 order).2).book = "TRSY2" ∧
    ((tradeBookingProcessAdd 1 order).2).book = "TRSY3" ∧
    ((tradeBookingProcessAdd 2 order).2).book = "TRSY1" := by
  refine ⟨rfl, rfl, rfl, rfl, rfl, rfl, ?_, ?_, ?_⟩
  · show "TRSY" ++ toString (1 + 1 % 3) = "TRSY2"
    decide
  · show "TRSY" ++ toString (1 + 2 % 3) = "TRSY3"
    decide
  · show "TRSY" ++ toString (1 + 3 % 3) = "TRSY1"
    decide

/-! ## C5 — algo streaming output -/

theorem runAlgoStreaming_length (c : Int) (ps : List Price) :
    (runAlgoStreaming c ps).length = ps.length := by
  induction ps generalizing c with
  | nil => simp [runAlgoStreaming]
  | cons p ps ih => simp [runAlgoStreaming, ih]

theorem runAlgoStreaming_spec (ps : List Price) :
    ∀ (c : Int) (i : Nat) (h1 : i < ps.length)
      (h2 : i < (runAlgoStreaming c ps).length),
    (runAlgoStreaming c ps).get ⟨i, h2⟩ =
      ⟨(ps.get ⟨i, h1⟩).product,
       ⟨(ps.get ⟨i, h1⟩).mid - (ps.get ⟨i, h1⟩).bidOfferSpread * (1 / 2),
        (if ((c = 0) ↔ (i % 2 = 0)) then 2000000 else 1000000),
        2 * (if ((c = 0) ↔ (i % 2 = 0)) then 2000000 else 1000000),
        PricingSide.BID⟩,
       ⟨(ps.get ⟨i, h1⟩).mid + (ps.get ⟨i, h1⟩).bidOfferSpread * (1 / 2),
        (if ((c = 0) ↔ (i % 2 = 0)) then 2000000 else 1000000),
        2 * (if ((c = 0) ↔ (i % 2 = 0)) then 2000000 else 1000000),
        PricingSide.OFFER⟩⟩ := by
  induction ps with
  | nil =>
    intro c i h1 h2
    exact absurd h1 (by simp)
  | cons p ps ih =>
    intro c i h1 h2
    cases i with
    | zero =>
      by_cases hc : c = 0 <;>
        simp [runAlgoStreaming, publishPrice, hc]
    | succ j =>
      have h1j : j < ps.length := by simpa using h1
      have h2j : j < (runAlgoStreaming (publishPrice c p).1 ps).length := by
        rw [runAlgoStreaming_length]
        exact h1j
      have hstep : (runAlgoStreaming c (p :: ps)).get ⟨j + 1, h2⟩ =
          (runAlgoStreaming (publishPrice c p).1 ps).get ⟨j, h2j⟩ := by
        simp [runAlgoStreaming]
      rw [hstep, ih (publishPrice c p).1 j h1j h2j]
      by_cases hc : c = 0
      · by_cases hj : j % 2 = 0
        · have hj1 : ¬ (j + 1) % 2 = 0 := by omega
          simp [publishPrice, hc, hj, hj1]
        · have hj1 : (j + 1) % 2 = 0 := by omega
          simp [publishPrice, hc, hj, hj1]
      · by_cases hj : j % 2 = 0
        · have hj1 : ¬ (j + 1) % 2 = 0 := by omega
          simp [publishPrice, hc, hj, hj1]
        · have hj1 : (j + 1) % 2 = 0 := by omega
          simp [publishPrice, hc, hj, hj1]

/-- C5: starting from counter 0, the i-th emitted stream prices bid and
offer at mid ∓ spread/2 of the i-th incoming price, both visible sizes
are 2 000 000 for even i and 1 000 000 for odd i, and every hidden size
is twice its visible size. -/
theorem algo_streaming_pattern (ps : List Price) (i : Nat)
    (h1 : i < ps.length) (h2 : i < (runAlgoStreaming 0 ps).length) :
    ((runAlgoStreaming 0 ps).get ⟨i, h2⟩).bidOrder.price =
      (ps.get ⟨i, h1⟩).mid - (ps.get ⟨i, h1⟩).bidOfferSpread / 2 ∧
    ((runAlgoStreaming 0 ps).get ⟨i, h2⟩).offerOrder.price =
      (ps.get ⟨i, h1⟩).mid + (ps.get ⟨i, h1⟩).bidOfferSpread / 2 ∧
    ((runAlgoStreaming 0 ps).get ⟨i, h2⟩).bidOrder.visibleQuantity =
      (if i % 2 = 0 then 2000000 else 1000000) ∧
    ((runAlgoStreaming 0 ps).get ⟨i, h2⟩).offerOrder.visibleQuantity =
      (if i % 2 = 0 then 2000000 else 1000000) ∧
    ((runAlgoStreaming 0 ps).get ⟨i, h2⟩).bidOrder.hiddenQuantity =
      2 * ((runAlgoStreaming 0 ps).get ⟨i, h2⟩).bidOrder.visibleQuantity ∧
    ((runAlgoStreaming 0 ps).get ⟨i, h2⟩).offerOrder.hiddenQuantity =
      2 * ((runAlgoStreaming 0 ps).get ⟨i, h2⟩).offerOrder.visibleQuantity := by
  rw [runAlgoStreaming_spec ps 0 i h1 h2]
  refine ⟨by ring, by ring, by simp, by simp, rfl, rfl⟩

/-- Witness for C5: two incoming prices; the second (odd-index) stream has
visible size 1 000 000 and hidden size 2 000 000. -/
theorem algo_streaming_pattern_witness :
    ((runAlgoStreaming 0 demoPrices).getD 1 defaultStream).bidOrder.visibleQuantity
      = 1000000 ∧
    ((runAlgoStreaming 0 demoPrices).getD 1 defaultStream).bidOrder.hiddenQuantity
      = 2000000 := by
  have h1 : 1 < demoPrices.length := by decide
  have h2 : 1 < (runAlgoStreaming 0 demoPrices).length := by
    rw [runAlgoStreaming_length]
    exact h1
  obtain ⟨-, -, hbv, -, hbh, -⟩ := algo_streaming_pattern demoPrices 1 h1 h2
  rw [List.getD_eq_get (runAlgoStreaming 0 demoPrices) defaultStream h2]
  constructor
  · rw [hbv]
    norm_num
  · rw [hbh, hbv]
    norm_num

/-! ## C6 — best bid/offer of the cached order book -/

/-- C6 (code bug): for a cached order book with best bid 99 and best
offer 100, `GetBestBidOffer` returns the best OFFER in both components of
the `BidOffer` — the source initialises its `bid_order` local from
`GetOfferStack()[0]` — so the bid component is not the best bid of the
cached book. -/
theorem best_bid_offer_bug :
    getBestBidOffer (mdOnMessage [] demoWideBook) "91282CAX9" =
      some (⟨100, 1000000, PricingSide.OFFER⟩, ⟨100, 1000000, PricingSide.OFFER⟩) ∧
    demoWideBook.bidStack.headD defaultOrder = ⟨99, 1000000, PricingSide.BID⟩ ∧
    (⟨100, 1000000, PricingSide.OFFER⟩ : MDOrder).side ≠
      (⟨99, 1000000, PricingSide.BID⟩ : MDOrder).side :=
  ⟨rfl, rfl, by decide⟩

/-! ## C7 — inquiry lifecycle -/

/-- C7: an inquiry entering `OnMessage` in state RECEIVED gets price 100,
is flipped to QUOTED by the quote connector (triggering the second pass),
ends in state DONE and is notified to the listeners exactly once, in
state DONE; an inquiry entering in any state other than RECEIVED or
QUOTED is set to REJECTED and notified exactly once. -/
theorem inquiry_lifecycle (i : Inquiry) :
    (i.state = InquiryState.RECEIVED →
      inquiryOnMessage i =
        ({ i with price := 100, state := InquiryState.DONE },
         [{ i with price := 100, state := InquiryState.DONE }])) ∧
    (i.state ≠ InquiryState.RECEIVED → i.state ≠ InquiryState.QUOTED →
      inquiryOnMessage i =
        ({ i with state := InquiryState.REJECTED },
         [{ i with state := InquiryState.REJECTED }])) := by
  obtain ⟨iid, prod, sd, qty, pr, st⟩ := i
  constructor
  · intro h
    replace h : st = InquiryState.RECEIVED := h
    subst h
    simp [inquiryOnMessage, inquirySendQuote, quotePublish]
  · intro h1 h2
    replace h1 : st ≠ InquiryState.RECEIVED := h1
    replace h2 : st ≠ InquiryState.QUOTED := h2
    cases st with
    | RECEIVED => exact absurd rfl h1
    | QUOTED => exact absurd rfl h2
    | DONE => simp [inquiryOnMessage]
    | REJECTED => simp [inquiryOnMessage]
    | CUSTOMER_REJECTED => simp [inquiryOnMessage]

/-- Witness for C7: a RECEIVED inquiry ends DONE at price 100 with exactly
one notification. -/
theorem inquiry_lifecycle_witness :
    demoInquiry.state = InquiryState.RECEIVED ∧
    inquiryOnMessage demoInquiry =
      ({ demoInquiry with price := 100, state := InquiryState.DONE },
       [{ demoInquiry with price := 100, state := InquiryState.DONE }]) :=
  ⟨rfl, (inquiry_lifecycle demoInquiry).1 rfl⟩

/-! ## C8 — bucketed risk -/

/-- Counterexample to C8 as stated: with the (only reachable) empty risk
cache and a one-product sector, the claim prescribes a 0-quantity
contribution and a returned PV01 of 0, but `GetData` inside
`GetBucketedRisk` hits the not-found branch and the process exits
(`none`), so no value — let alone 0 — is returned. -/
theorem bucketed_risk_counterexample :
    getBucketedRisk [] ["91282CAX9"] = none ∧
    getBucketedRisk [] ["91282CAX9"] ≠ some (RiskVal.fin 0, 0) := by
  refine ⟨rfl, ?_⟩
  intro h
  rw [show getBucketedRisk [] ["91282CAX9"] = none from rfl] at h
  exact Option.noConfusion h

theorem bucketedRiskAux_spec (risks : List (String × PV01)) (sector : List String) :
    ∀ pv q : ℚ, (∀ c ∈ sector, (findAssoc risks c).isSome) →
    bucketedRiskAux risks sector pv q =
      some (pv + sectorPV risks sector, q + sectorQ risks sector) := by
  induction sector with
  | nil =>
    intro pv q _
    simp [bucketedRiskAux, sectorPV, sectorQ]
  | cons c cs ih =>
    intro pv q h
    have hc : (findAssoc risks c).isSome := h c (by simp)
    rcases hr : findAssoc risks c with _ | r
    · rw [hr] at hc
      exact absurd hc (by simp)
    · have hrest : ∀ x ∈ cs, (findAssoc risks x).isSome := fun x hx => h x (by simp [hx])
      simp only [bucketedRiskAux, hr]
      rw [ih (pv + (r.quantity : ℚ) * r.pv01) (q + (r.quantity : ℚ)) hrest]
      simp [sectorPV, sectorQ, hr]
      constructor <;> ring

theorem bucketedRiskAux_abort (risks : List (String × PV01)) (sector : List String) :
    ∀ pv q : ℚ, ∀ c ∈ sector, findAssoc risks c = none →
    bucketedRiskAux risks sector pv q = none := by
  induction sector with
  | nil =>
    intro pv q c hc _
    exact absurd hc (by simp)
  | cons c0 cs ih =>
    intro pv q c hc hnone
    rcases hr : findAssoc risks c0 with _ | r
    · simp [bucketedRiskAux, hr]
    · rcases List.mem_cons.mp hc with rfl | hcs
      · rw [hr] at hnone
        exact absurd hnone (by simp)
      · simp only [bucketedRiskAux, hr]
        exact ih _ _ c hcs hnone

/-- C8 amended: when every product of the sector has a cached PV01 entry,
`GetBucketedRisk` returns the weighted mean Σ(qᵢ·pv01ᵢ)/Σqᵢ and the total
quantity Σqᵢ, except that a zero total quantity makes the unconditional
floating-point division produce a non-finite value (`undef`), not 0; a
product with no cached entry makes `GetData` exit the process (`none`)
instead of contributing quantity 0. -/
theorem bucketed_risk (risks : List (String × PV01)) (sector : List String) :
    ((∀ c ∈ sector, (findAssoc risks c).isSome) →
      getBucketedRisk risks sector =
        some (if sectorQ risks sector = 0 then RiskVal.undef
              else RiskVal.fin (sectorPV risks sector / sectorQ risks sector),
              sectorQ risks sector)) ∧
    (∀ c ∈ sector, findAssoc risks c = none →
      getBucketedRisk risks sector = none) := by
  constructor
  · intro h
    rw [getBucketedRisk, bucketedRiskAux_spec risks sector 0 0 h]
    simp
  · intro c hc hnone
    rw [getBucketedRisk, bucketedRiskAux_abort risks sector 0 0 c hc hnone]

/-- Witness for the amended C8: a cached 2Y PV01 entry with quantity
1 000 000 gives the weighted mean over the one-bond sector. -/
theorem bucketed_risk_witness :
    (∀ c ∈ ["91282CAX9"], (findAssoc demoRisks c).isSome) ∧
    getBucketedRisk demoRisks ["91282CAX9"] =
      some (if sectorQ demoRisks ["91282CAX9"] = 0 then RiskVal.undef
            else RiskVal.fin (sectorPV demoRisks ["91282CAX9"] /
                              sectorQ demoRisks ["91282CAX9"]),
            sectorQ demoRisks ["91282CAX9"]) :=
  have hall : ∀ c ∈ ["91282CAX9"], (findAssoc demoRisks c).isSome := by decide
  ⟨hall, (bucketed_risk demoRisks ["91282CAX9"]).1 hall⟩

/-! ## C10 — the risk cache is never populated -/

/-- C10: `BondRiskService::AddPosition` only constructs and notifies a
PV01 without storing it, so after every sequence of processed positions
the `risks` cache is still empty and `GetData` takes the not-found branch
(process exit, modelled `none`) for every key. -/
theorem risk_cache_never_populated (ps : List Position) (key : String) :
    riskProcess [] ps = [] ∧ riskGetData (riskProcess [] ps) key = none := by
  have h : riskProcess [] ps = [] := by
    induction ps with
    | nil => rfl
    | cons p ps ih => simpa [riskProcess, riskAddPosition] using ih
  refine ⟨h, ?_⟩
  rw [h]
  rfl

/-! ## C9 — fractional price codec -/

theorem digitChar_toNat (n : Nat) (h : n < 10) : (digitChar n).toNat = 48 + n := by
  have hv : (48 + n).isValidChar := by
    left
    omega
  simp [digitChar, Char.ofNat, hv, Char.toNat, Char.ofNatAux]
  rfl

theorem charVal_digitChar (n : Nat) (h : n < 10) : charVal (digitChar n) = (n : ℤ) := by
  simp [charVal, digitChar_toNat n h]

theorem natToCharsFuel_small (fuel n : Nat) (hf : 0 < fuel) (h : n < 10) :
    natToCharsFuel fuel n = [digitChar n] := by
  cases fuel with
  | zero => omega
  | succ m => simp [natToCharsFuel, h]

theorem natToCharsFuel_step (fuel n : Nat) (h : 10 ≤ n) :
    natToCharsFuel (fuel + 1) n =
      natToCharsFuel fuel (n / 10) ++ [digitChar (n % 10)] := by
  simp [natToCharsFuel, Nat.not_lt.mpr h]

theorem natToChars_small (n : Nat) (h : n < 10) : natToChars n = [digitChar n] :=
  natToCharsFuel_small (n + 1) n (by omega) h

theorem natToChars_two (n : Nat) (h1 : 10 ≤ n) (h2 : n ≤ 99) :
    natToChars n = [digitChar (n / 10), digitChar (n % 10)] := by
  rw [natToChars, natToCharsFuel_step n n h1,
      natToCharsFuel_small n (n / 10) (by omega) (by omega)]
  simp

theorem natToChars_three (n : Nat) (h1 : 100 ≤ n) (h2 : n ≤ 999) :
    natToChars n =
      [digitChar (n / 100), digitChar (n / 10 % 10), digitChar (n % 10)] := by
  obtain ⟨m, rfl⟩ : ∃ m, n = m + 1 := ⟨n - 1, by omega⟩
  rw [natToChars, natToCharsFuel_step (m + 1) (m + 1) (by omega),
      natToCharsFuel_step m ((m + 1) / 10) (by omega),
      natToCharsFuel_small m ((m + 1) / 10 / 10) (by omega) (by omega)]
  rw [Nat.div_div_eq_div_mul]
  simp

theorem floor_decomp (I xy z : Nat) (hxy : xy ≤ 31) (hz : z ≤ 7) :
    Int.floor ((I : ℚ) + (xy : ℚ) / 32 + (z : ℚ) / 256) = (I : ℤ) ∧
    Int.floor (32 * (((I : ℚ) + (xy : ℚ) / 32 + (z : ℚ) / 256) - (I : ℚ))) = (xy : ℤ) ∧
    Int.floor (256 * (((I : ℚ) + (xy : ℚ) / 32 + (z : ℚ) / 256) - (I : ℚ) -
      (xy : ℚ) / 32)) = (z : ℤ) := by
  have hx0 : (0 : ℚ) ≤ (xy : ℚ) := by positivity
  have hz0 : (0 : ℚ) ≤ (z : ℚ) := by positivity
  have hxq : (xy : ℚ) ≤ 31 := by exact_mod_cast hxy
  have hzq : (z : ℚ) ≤ 7 := by exact_mod_cast hz
  refine ⟨?_, ?_, ?_⟩
  · rw [Int.floor_eq_iff]
    constructor
    · push_cast
      linarith
    · push_cast
      linarith
  · have harith : 32 * (((I : ℚ) + (xy : ℚ) / 32 + (z : ℚ) / 256) - (I : ℚ)) =
        (xy : ℚ) + (z : ℚ) / 8 := by ring
    rw [harith, Int.floor_eq_iff]
    constructor
    · push_cast
      linarith
    · push_cast
      linarith
  · have harith : 256 * (((I : ℚ) + (xy : ℚ) / 32 + (z : ℚ) / 256) - (I : ℚ) -
        (xy : ℚ) / 32) = (z : ℚ) := by ring
    rw [harith]
    exact_mod_cast Int.floor_natCast z

theorem natToChars_pad2 (xy : Nat) (h : xy ≤ 31) :
    (if (natToChars xy).length = 1 then digitChar 0 :: natToChars xy
     else if (natToChars xy).length = 0 then [digitChar 0, digitChar 0]
     else natToChars xy) = [digitChar (xy / 10), digitChar (xy % 10)] := by
  by_cases h10 : xy < 10
  · rw [natToChars_small xy h10]
    simp
    rw [Nat.div_eq_of_lt h10, Nat.mod_eq_of_lt h10]
    simp
  · rw [natToChars_two xy (by omega) (by omega)]
    simp

theorem formatPrice_repr (I xy z : Nat) (hxy : xy ≤ 31) (hz : z ≤ 7) :
    formatPrice ((I : ℚ) + (xy : ℚ) / 32 + (z : ℚ) / 256) =
      natToChars I ++ Char.ofNat 45 ::
        ([digitChar (xy / 10), digitChar (xy % 10)] ++ [digitChar z]) := by
  obtain ⟨hf1, hf2, hf3⟩ := floor_decomp I xy z hxy hz
  have hz10 : z < 10 := by omega
  have hInn : ¬ ((I : ℤ) < 0) := by omega
  have hxynn : ¬ ((xy : ℤ) < 0) := by omega
  have hznn : ¬ ((z : ℤ) < 0) := by omega
  simp only [formatPrice]
  rw [hf1]
  simp only [Int.cast_natCast]
  rw [hf2]
  simp only [Int.cast_natCast]
  rw [hf3]
  simp only [intToChars, if_neg hInn, if_neg hxynn, if_neg hznn, Int.toNat_natCast]
  rw [natToChars_pad2 xy hxy, natToChars_small z hz10]

theorem calculatePrice_six (c0 c1 dash c3 c4 c5 : Char) :
    calculatePrice [c0, c1, dash, c3, c4, c5] =
      (charVal c5 : ℚ) / 256 + (charVal c4 : ℚ) / 32 + 10 * (charVal c3 : ℚ) / 32 +
      (charVal c1 : ℚ) + 10 * (charVal c0 : ℚ) := by
  simp [calculatePrice]

theorem calculatePrice_seven (c0 c1 c2 dash c4 c5 c6 : Char) :
    calculatePrice [c0, c1, c2, dash, c4, c5, c6] =
      (charVal c6 : ℚ) / 256 + (charVal c5 : ℚ) / 32 + 10 * (charVal c4 : ℚ) / 32 +
      (charVal c2 : ℚ) + 10 * (charVal c1 : ℚ) + 100 := by
  simp [calculatePrice]

/-- Counterexample to C9 as stated: the representable price 205 (I = 205,
XY = 0, Z = 0) encodes to the seven-character "205-000", which the decoder
(built for two-digit I, plus a literal +100 for seven-character strings)
reads back as 105 — an error of 100, far beyond 1/256. -/
theorem price_codec_counterexample :
    calculatePrice (formatPrice (205 : ℚ)) = 105 ∧
    ¬ (|calculatePrice (formatPrice (205 : ℚ)) - 205| ≤ 1 / 256) := by
  have h205 : (205 : ℚ) = ((205 : ℕ) : ℚ) + ((0 : ℕ) : ℚ) / 32 + ((0 : ℕ) : ℚ) / 256 := by
    norm_num
  have hcalc : calculatePrice (formatPrice (205 : ℚ)) = 105 := by
    rw [h205, formatPrice_repr 205 0 0 (by omega) (by omega),
        natToChars_three 205 (by omega) (by omega)]
    norm_num
    rw [calculatePrice_seven]
    rw [charVal_digitChar 0 (by omega), charVal_digitChar 5 (by omega)]
    norm_num
  refine ⟨hcalc, ?_⟩
  rw [hcalc]
  norm_num

/-- C9 amended: for every representable price `p = I + XY/32 + Z/256`
(0 ≤ XY ≤ 31, 0 ≤ Z ≤ 7) whose integer part lies in the decoder's domain
10 ≤ I ≤ 199 (two-digit dollars, or three-digit dollars 100–199 handled
by the +100 branch), decoding the encoding returns `p` exactly — in
particular to within 1/256.  Outside that range of I the decoder misreads
the string (see the counterexample at I = 205). -/
theorem price_codec_round_trip (I xy z : Nat) (hI1 : 10 ≤ I) (hI2 : I ≤ 199)
    (hxy : xy ≤ 31) (hz : z ≤ 7) :
    calculatePrice (formatPrice ((I : ℚ) + (xy : ℚ) / 32 + (z : ℚ) / 256)) =
      (I : ℚ) + (xy : ℚ) / 32 + (z : ℚ) / 256 := by
  rw [formatPrice_repr I xy z hxy hz]
  have hxyq : 10 * ((xy / 10 : ℕ) : ℚ) + ((xy % 10 : ℕ) : ℚ) = (xy : ℚ) := by
    exact_mod_cast Nat.div_add_mod xy 10
  by_cases hI99 : I ≤ 99
  · rw [natToChars_two I hI1 hI99]
    have hlist : natToChars I = [digitChar (I / 10), digitChar (I % 10)] :=
      natToChars_two I hI1 hI99
    simp only [List.cons_append, List.nil_append, natToChars_two I hI1 hI99]
    rw [calculatePrice_six]
    rw [charVal_digitChar (I / 10) (by omega), charVal_digitChar (I % 10) (by omega),
        charVal_digitChar (xy / 10) (by omega), charVal_digitChar (xy % 10) (by omega),
        charVal_digitChar z (by omega)]
    have hIq : 10 * ((I / 10 : ℕ) : ℚ) + ((I % 10 : ℕ) : ℚ) = (I : ℚ) := by
      exact_mod_cast Nat.div_add_mod I 10
    simp only [Int.cast_natCast]
    linarith
  · rw [natToChars_three I (by omega) (by omega)]
    simp only [List.cons_append, List.nil_append]
    rw [calculatePrice_seven]
    rw [charVal_digitChar (I / 10 % 10) (by omega), charVal_digitChar (I % 10) (by omega),
        charVal_digitChar (xy / 10) (by omega), charVal_digitChar (xy % 10) (by omega),
        charVal_digitChar z (by omega)]
    have hIdec : I = 100 + 10 * (I / 10 % 10) + I % 10 := by omega
    have hIq : (I : ℚ) = 100 + 10 * ((I / 10 % 10 : ℕ) : ℚ) + ((I % 10 : ℕ) : ℚ) := by
      exact_mod_cast hIdec
    simp only [Int.cast_natCast]
    linarith

/-- Witness for the amended C9: 99-311 (p = 99 + 31/32 + 1/256) decodes
back to itself. -/
theorem price_codec_round_trip_witness :
    calculatePrice (formatPrice (((99 : ℕ) : ℚ) + ((31 : ℕ) : ℚ) / 32 +
        ((1 : ℕ) : ℚ) / 256)) =
      ((99 : ℕ) : ℚ) + ((31 : ℕ) : ℚ) / 32 + ((1 : ℕ) : ℚ) / 256 :=
  price_codec_round_trip 99 31 1 (by omega) (by omega) (by omega) (by omega)

end BondSys
